import Mathlib

/-!
Verification of the link-validation engine of `scripts/validate_links.py`.

Strings of the Python program (file contents, URLs, filesystem paths,
reason messages) are modelled as `List Char`.  The filesystem and the
network are modelled as explicit oracles (`FS`, `Net`) passed to the
embedded functions; the embedded functions mirror the Python source
line by line.
-/

namespace ValidateLinks

/-- whitespace test modelling Python's `\s` character class and
`str.strip()` / `str.isspace()` on ASCII content. -/
def isSpace (c : Char) : Bool :=
  c == ' ' || c == '\t' || c == '\n' || c == '\r' || c == '\x0b' || c == '\x0c'

/-- pattern `pat` is a prefix of `s` (models Python `str.startswith`). -/
def startsWithL : List Char → List Char → Bool
  | [], _ => true
  | _ :: _, [] => false
  | p :: ps, c :: cs => p == c && startsWithL ps cs

/-- pattern `pat` is a suffix of `s` (models Python `str.endswith`). -/
def endsWithL (pat s : List Char) : Bool :=
  startsWithL pat.reverse s.reverse

/-- models Python `str.strip()` (whitespace removed from both ends). -/
def stripWs (l : List Char) : List Char :=
  ((l.dropWhile isSpace).reverse.dropWhile isSpace).reverse

/-- models POSIX `os.path.join(a, b)` for two components. -/
def pjoin (a b : List Char) : List Char :=
  if startsWithL ['/'] b then b
  else if a = [] ∨ endsWithL ['/'] a then a ++ b
  else a ++ '/' :: b

/-- models POSIX `os.path.dirname(p)`: everything up to the last `/`,
with trailing slashes stripped unless the result is all slashes. -/
def dirname (p : List Char) : List Char :=
  let head := (p.reverse.dropWhile (fun c => c ≠ '/')).reverse
  if head ≠ [] ∧ ¬ (head.all (fun c => c == '/')) then
    (head.reverse.dropWhile (fun c => c == '/')).reverse
  else head

/-- the component-collapsing loop of POSIX `os.path.normpath`: drops empty
and `.` components and resolves `..` against preceding components. -/
def normComps (initSlashes : Nat) (comps : List (List Char)) : List (List Char) :=
  comps.foldl
    (fun acc comp =>
      if comp = [] ∨ comp = ['.'] then acc
      else if comp ≠ ['.', '.'] ∨ (initSlashes = 0 ∧ acc = []) ∨
              (acc ≠ [] ∧ acc.getLast? = some ['.', '.']) then
        acc ++ [comp]
      else if acc ≠ [] then acc.dropLast
      else acc)
    []

/-- models POSIX `os.path.normpath(p)`. -/
def normpath (p : List Char) : List Char :=
  if p = [] then ['.']
  else
    let initSlashes : Nat :=
      if startsWithL ['/'] p then
        if startsWithL ['/', '/'] p ∧ ¬ startsWithL ['/', '/', '/'] p then 2 else 1
      else 0
    let comps := p.splitOn '/'
    let joined := List.intercalate ['/'] (normComps initSlashes comps)
    let res := List.replicate initSlashes '/' ++ joined
    if res = [] then ['.'] else res

/-- models POSIX `os.path.abspath(p)` for a process whose working
directory is `cwd`: relative paths are joined to `cwd`, then the result
is normalised. -/
def abspath (cwd p : List Char) : List Char :=
  normpath (if startsWithL ['/'] p then p else pjoin cwd p)

/-- filesystem oracle: the process-visible state `validate_links.py`
queries through `os.path` and `os.walk`.  `isFile`/`isDir`/`isOther`
classify what a path stats as (`isOther` covers entries that are neither
regular files nor directories, e.g. sockets); `os.path.exists` is their
disjunction.  `walkFiles root` is the list of file paths (already joined
to their directories) that `os.walk(root)` yields, and `content p` is
the text obtained by reading file `p`. -/
structure FS where
  isFile : List Char → Bool
  isDir : List Char → Bool
  isOther : List Char → Bool
  cwd : List Char
  walkFiles : List Char → List (List Char)
  content : List Char → List Char

/-- models `os.path.exists`: the path stats as something. -/
def FS.exists' (fs : FS) (p : List Char) : Bool :=
  fs.isFile p || fs.isDir p || fs.isOther p

/-- reason string `"Fragment only"`. -/
def fragmentOnlyR : List Char := "Fragment only".toList

/-- reason string `"File exists"`. -/
def fileExistsR : List Char := "File exists".toList

/-- reason string `"Directory with index.md"`. -/
def dirIndexR : List Char := "Directory with index.md".toList

/-- reason string `f"File not found: {full_path}"`. -/
def notFoundR (full_path : List Char) : List Char :=
  "File not found: ".toList ++ full_path

/-- the file name `index.md`. -/
def indexMdL : List Char := "index.md".toList

/-- path resolution performed by `validate_local_link` once the fragment
has been split off: a target starting with `/` is rooted at the docs
root (leading slashes stripped), anything else is relative to the
directory of the containing file; the result is made absolute. -/
def resolveLocal (cwd clean_url base_path docs_root : List Char) : List Char :=
  abspath cwd
    (if startsWithL ['/'] clean_url then
       pjoin docs_root (clean_url.dropWhile (fun c => c == '/'))
     else pjoin (dirname base_path) clean_url)

/-- embedding of `validate_local_link(link_url, base_path, docs_root)`
(`validate_links.py` lines 57-85) against filesystem oracle `fs`. -/
def validate_local_link (fs : FS) (link_url base_path docs_root : List Char) :
    Bool × List Char :=
  let clean_url := link_url.takeWhile (fun c => c ≠ '#')
  if clean_url = [] then (true, fragmentOnlyR)
  else
    let full_path := resolveLocal fs.cwd clean_url base_path docs_root
    if fs.exists' full_path then (true, fileExistsR)
    else if fs.isDir full_path then
      if fs.exists' (pjoin full_path indexMdL) then (true, dirIndexR)
      else (false, notFoundR full_path)
    else (false, notFoundR full_path)

/-- outcome of one HTTP request as seen by the `try` block of
`validate_external_link`: a status code, or one of the
`requests.exceptions` raised. -/
inductive NetResult where
  | ok (status : Nat)
  | timeout
  | connError
  | reqError (msg : List Char)
deriving DecidableEq

/-- an HTTP method issued by `validate_external_link`. -/
inductive Method where
  | head
  | get
deriving DecidableEq

/-- network oracle: what the HEAD and the GET request to a given URL
would come back with. -/
def Net : Type := List Char → NetResult × NetResult

/-- reason string `f"HTTP {status}"`. -/
def httpR (status : Nat) : List Char :=
  "HTTP ".toList ++ Nat.toDigits 10 status

/-- reason string `f"HTTP {status} (GET)"`. -/
def httpGetR (status : Nat) : List Char :=
  "HTTP ".toList ++ Nat.toDigits 10 status ++ " (GET)".toList

/-- reason string `"Timeout"`. -/
def timeoutR : List Char := "Timeout".toList

/-- reason string `"Connection error"`. -/
def connErrorR : List Char := "Connection error".toList

/-- reason string `f"Request error: {str(e)}"`. -/
def reqErrorR (msg : List Char) : List Char :=
  "Request error: ".toList ++ msg

/-- embedding of `validate_external_link(url, session)`
(`validate_links.py` lines 88-106).  `h` and `g` are what the HEAD and
the GET request to the URL return; the second component of the result
records which requests were actually issued, in order.  A `Timeout`,
`ConnectionError` or other `RequestException` raised by either request
is caught by the surrounding `except` clauses. -/
def validate_external_link (h g : NetResult) : (Bool × List Char) × List Method :=
  match h with
  | .timeout => ((false, timeoutR), [.head])
  | .connError => ((false, connErrorR), [.head])
  | .reqError m => ((false, reqErrorR m), [.head])
  | .ok s =>
    if s < 400 then ((true, httpR s), [.head])
    else
      match g with
      | .timeout => ((false, timeoutR), [.head, .get])
      | .connError => ((false, connErrorR), [.head, .get])
      | .reqError m => ((false, reqErrorR m), [.head, .get])
      | .ok t =>
        if t < 400 then ((true, httpGetR t), [.head, .get])
        else ((false, httpR t), [.head, .get])

/-- consumes one expected character: `some` of the tail when the input
starts with `c`, `none` otherwise. -/
def expectChar (c : Char) : List Char → Option (List Char)
  | x :: xs => if x = c then some xs else none
  | [] => none

/-- one attempted match of the regex `\[([^\]]*)\]\(([^)]+)\)` at the
start of `s`: on success returns the two capture groups (display text
and target) together with the rest of the input after the match.  The
character classes exclude the closing delimiters, so the greedy
sub-matches are the maximal runs up to the first delimiter and the
regex engine never backtracks into them. -/
def matchInlineAt (s : List Char) : Option (List Char × List Char × List Char) :=
  (expectChar '[' s).bind fun rest =>
  (expectChar ']' (rest.dropWhile (fun c => c ≠ ']'))).bind fun r1 =>
  (expectChar '(' r1).bind fun r2 =>
  if r2.takeWhile (fun c => c ≠ ')') = [] then none
  else
    (expectChar ')' (r2.dropWhile (fun c => c ≠ ')'))).bind fun r3 =>
    some (rest.takeWhile (fun c => c ≠ ']'), r2.takeWhile (fun c => c ≠ ')'), r3)

/-- one attempted match of the regex `\[([^\]]+)\]:\s*(.+)` at the start
of `s` (Python semantics: `\s` matches any whitespace including
newlines, `.` matches anything except `\n`): on success returns the two
capture groups (label and target) and the rest of the input after the
match.  After the greedy `\s*`, if the consumed whitespace ran to the
end of the input, the engine backtracks it until the single mandatory
`.` of `(.+)` finds a non-newline character, so the target becomes the
last non-newline (whitespace) character. -/
def matchRefAt (s : List Char) : Option (List Char × List Char × List Char) :=
  (expectChar '[' s).bind fun rest =>
  if rest.takeWhile (fun c => c ≠ ']') = [] then none
  else
    (expectChar ']' (rest.dropWhile (fun c => c ≠ ']'))).bind fun r1 =>
    (expectChar ':' r1).bind fun r2 =>
    match r2.dropWhile isSpace with
    | c :: r3 =>
      some (rest.takeWhile (fun c => c ≠ ']'),
            (c :: r3).takeWhile (fun x => x ≠ '\n'),
            (c :: r3).dropWhile (fun x => x ≠ '\n'))
    | [] =>
      match r2.reverse.dropWhile (fun x => x == '\n') with
      | c :: _ =>
        some (rest.takeWhile (fun c => c ≠ ']'), [c],
              (r2.reverse.takeWhile (fun x => x == '\n')).reverse)
      | [] => none

/-- worker for `inlineFindall`, structurally recursive on a fuel
counter so that the kernel can evaluate it.  Every scanning step
consumes at least one character of the input (`matchInlineAt_rest_lt`),
so fuel equal to the input length never runs out before the input is
exhausted. -/
def inlineFindallGo : Nat → List Char → List (List Char × List Char)
  | 0, _ => []
  | _ + 1, [] => []
  | fuel + 1, c :: cs =>
    match matchInlineAt (c :: cs) with
    | some (t, u, rest) => (t, u) :: inlineFindallGo fuel rest
    | none => inlineFindallGo fuel cs

/-- embedding of `re.findall(r'\[([^\]]*)\]\(([^)]+)\)', content)`:
scan left to right; at each position try a match; a successful match
yields its capture groups and the scan resumes after the match,
otherwise the scan advances one character. -/
def inlineFindall (s : List Char) : List (List Char × List Char) :=
  inlineFindallGo s.length s

/-- worker for `refFindallM`, structurally recursive on a fuel counter
so that the kernel can evaluate it; fuel equal to the input length
never runs out (`matchRefAt_rest_lt`). -/
def refFindallMGo : Nat → List Char → List (List Char × List Char × List Char)
  | 0, _ => []
  | _ + 1, [] => []
  | fuel + 1, c :: cs =>
    match matchRefAt (c :: cs) with
    | some (l, t, rest) =>
      ((c :: cs).take ((c :: cs).length - rest.length), l, t) :: refFindallMGo fuel rest
    | none => refFindallMGo fuel cs

/-- embedding of `re.findall(r'\[([^\]]+)\]:\s*(.+)', content)`, kept
together with the full matched substring: each entry is
`(whole-match, label, target)`.  The scan is the same
leftmost / resume-after-match discipline as `inlineFindall`. -/
def refFindallM (s : List Char) : List (List Char × List Char × List Char) :=
  refFindallMGo s.length s

/-- the capture groups of the reference-definition pass, as
`re.findall` returns them. -/
def refFindall (s : List Char) : List (List Char × List Char) :=
  (refFindallM s).map (fun m => (m.2.1, m.2.2))

/-- one link as built by `extract_links`: display text, target string,
and the form tag (`markdown` for the inline pass, `reference` for the
reference-definition pass).  The `line` field of the Python dict is the
constant `None` and is omitted. -/
structure Link where
  text : List Char
  url : List Char
  ltype : List Char
deriving DecidableEq

/-- form tag `"markdown"`. -/
def markdownT : List Char := "markdown".toList

/-- form tag `"reference"`. -/
def referenceT : List Char := "reference".toList

/-- embedding of `extract_links(file_path)` (`validate_links.py` lines
26-54) applied to the text read from the file: the inline pass (tag
`markdown`) followed by the reference-definition pass (tag `reference`,
target passed through `.strip()`). -/
def extract_links (content : List Char) : List Link :=
  ((inlineFindall content).map fun p => ⟨p.1, p.2, markdownT⟩) ++
  ((refFindall content).map fun p => ⟨p.1, stripWs p.2, referenceT⟩)

/-- embedding of `find_markdown_files(directory)` (`validate_links.py`
lines 16-23): every file yielded by `os.walk` whose name ends in
`.md`. -/
def find_markdown_files (fs : FS) (directory : List Char) : List (List Char) :=
  (fs.walkFiles directory).filter (fun f => endsWithL ".md".toList f)

/-- one entry of the `broken_links` list built by `validate_links`. -/
structure Broken where
  file : List Char
  url : List Char
  text : List Char
  reason : List Char
  btype : List Char
deriving DecidableEq

/-- category tag `"external"`. -/
def externalT : List Char := "external".toList

/-- category tag `"local"`. -/
def localT : List Char := "local".toList

/-- target prefix `mailto:`. -/
def mailtoP : List Char := "mailto:".toList

/-- target prefix `javascript:`. -/
def javascriptP : List Char := "javascript:".toList

/-- target prefix `http://`. -/
def httpP : List Char := "http://".toList

/-- target prefix `https://`. -/
def httpsP : List Char := "https://".toList

/-- the body of the inner `for link in links` loop of `validate_links`
(`validate_links.py` lines 130-169) for one link: `none` when the link
is skipped or valid, `some` of the broken-links entry otherwise. -/
def checkLink (fs : FS) (net : Net) (check_external : Bool)
    (docs_directory file_path : List Char) (link : Link) : Option Broken :=
  let url := stripWs link.url
  if url = [] then none
  else if startsWithL mailtoP url then none
  else if startsWithL javascriptP url then none
  else if startsWithL httpP url || startsWithL httpsP url then
    if check_external then
      let r := (validate_external_link (net url).1 (net url).2).1
      if r.1 then none
      else some ⟨file_path, url, link.text, r.2, externalT⟩
    else none
  else
    let r := validate_local_link fs url file_path docs_directory
    if r.1 then none
    else some ⟨file_path, url, link.text, r.2, localT⟩

/-- embedding of `validate_links(docs_directory, check_external)`
(`validate_links.py` lines 109-186).  The result records the three
observables the Python function computes: `total_links`, the
`broken_links` list in check order, and the returned boolean
`len(broken_links) == 0`. -/
def validate_links (fs : FS) (net : Net) (docs_directory : List Char)
    (check_external : Bool) : Nat × List Broken × Bool :=
  let files := find_markdown_files fs docs_directory
  let total := (files.map fun f => (extract_links (fs.content f)).length).sum
  let broken := files.flatMap fun f =>
    (extract_links (fs.content f)).filterMap
      (checkLink fs net check_external docs_directory f)
  (total, broken, broken.isEmpty)

/-- embedding of `main()` (`validate_links.py` lines 189-204) after
argument parsing: the pre-flight `os.path.exists` check on the
positional directory argument, then the scan; returns the process exit
status. -/
def main (fs : FS) (net : Net) (docs_dir : List Char) (skip_external : Bool) : Nat :=
  if !(fs.exists' docs_dir) then 1
  else if (validate_links fs net docs_dir (!skip_external)).2.2 then 0 else 1

/-- network oracle whose every URL answers HTTP 200 on both HEAD and
GET. -/
def netOk : Net := fun _ => (NetResult.ok 200, NetResult.ok 200)

/-- concrete filesystem: `/docs` is a directory holding the single
documentation file `/docs/a.md`, whose text holds a `mailto:` link and
a dangling relative link; nothing else exists. -/
def fsDangling : FS :=
  { isFile := fun p => p == "/docs/a.md".toList
    isDir := fun p => p == "/docs".toList
    isOther := fun _ => false
    cwd := "/".toList
    walkFiles := fun p => if p == "/docs".toList then ["/docs/a.md".toList] else []
    content := fun p =>
      if p == "/docs/a.md".toList then "[x](mailto:a@b.com) [y](./missing.md)".toList
      else [] }

/-- the broken-links entry `validate_links` produces on `fsDangling`. -/
def brokenDangling : Broken :=
  ⟨"/docs/a.md".toList, "./missing.md".toList, "y".toList,
   "File not found: /docs/missing.md".toList, localT⟩

/-- concrete filesystem: `/docs` is an empty documentation directory. -/
def fsEmptyDocs : FS :=
  { isFile := fun _ => false
    isDir := fun p => p == "/docs".toList
    isOther := fun _ => false
    cwd := "/".toList
    walkFiles := fun _ => []
    content := fun _ => [] }

/-- concrete filesystem: `/notes.md` is a regular file and nothing else
exists; walking any root yields no files (`os.walk` over a non-directory
yields nothing). -/
def fsRootFile : FS :=
  { isFile := fun p => p == "/notes.md".toList
    isDir := fun _ => false
    isOther := fun _ => false
    cwd := "/".toList
    walkFiles := fun _ => []
    content := fun _ => [] }

/-- concrete filesystem: `/docs/sub` is a directory that does NOT
contain an `index.md`; `/docs/a.md` is the containing file. -/
def fsDirNoIndex : FS :=
  { isFile := fun p => p == "/docs/a.md".toList
    isDir := fun p => p == "/docs".toList || p == "/docs/sub".toList
    isOther := fun _ => false
    cwd := "/".toList
    walkFiles := fun p => if p == "/docs".toList then ["/docs/a.md".toList] else []
    content := fun _ => [] }

/-- concrete filesystem: the real file `/docs/sub/b.md` exists under
the documentation root `/docs`, alongside `/docs/sub/a.md`. -/
def fsTwoForms : FS :=
  { isFile := fun p => p == "/docs/sub/b.md".toList || p == "/docs/sub/a.md".toList
    isDir := fun p => p == "/docs".toList || p == "/docs/sub".toList
    isOther := fun _ => false
    cwd := "/".toList
    walkFiles := fun p => if p == "/docs".toList then ["/docs/sub/a.md".toList] else []
    content := fun _ => [] }

theorem expectChar_eq_some {c : Char} {l r : List Char} :
    expectChar c l = some r ↔ l = c :: r := by
  cases l with
  | nil => simp [expectChar]
  | cons x xs =>
    simp only [expectChar]
    split
    · simp_all
    · simp_all [eq_comm]

/-- the first element surviving `dropWhile p` falsifies `p`. -/
theorem dropWhile_cons_not {α : Type} {p : α → Bool} {l : List α} {c : α} {r : List α}
    (h : l.dropWhile p = c :: r) : p c = false := by
  induction l with
  | nil => simp at h
  | cons x xs ih =>
    rw [List.dropWhile_cons] at h
    split at h
    · exact ih h
    · rename_i hpx
      obtain ⟨h1, -⟩ := List.cons.inj h
      subst h1
      simpa using hpx

/-- a successful inline match decomposes its input into the matched
substring followed by the returned rest: the match is
`[text](url)` literally. -/
theorem matchInlineAt_decomp {s t u rest : List Char}
    (h : matchInlineAt s = some (t, u, rest)) :
    s = '[' :: t ++ ']' :: '(' :: u ++ ')' :: rest ∧
      (']' ∉ t) ∧ u ≠ [] ∧ (')' ∉ u) := by
  simp only [matchInlineAt, Option.bind_eq_some, expectChar_eq_some] at h
  obtain ⟨rest0, hs, r1, h1, r2, h2, h⟩ := h
  subst hs h2
  split at h
  · exact absurd h (by simp)
  · rename_i hne
    simp only [Option.bind_eq_some, expectChar_eq_some] at h
    obtain ⟨r3, h3, h4⟩ := h
    cases h4
    refine ⟨?_, ?_, hne, ?_⟩
    · have e1 : rest0 = rest0.takeWhile (fun c => c ≠ ']') ++ ']' :: '(' :: r2 := by
        rw [← h1]
        exact (List.takeWhile_append_dropWhile _ _).symm
      have e2 : r2 = r2.takeWhile (fun c => c ≠ ')') ++ ')' :: rest := by
        rw [← h3]
        exact (List.takeWhile_append_dropWhile _ _).symm
      conv_lhs => rw [e1]
      conv_lhs => rw [e2]
      simp
    · intro hmem
      have := List.mem_takeWhile_imp hmem
      simp at this
    · intro hmem
      have := List.mem_takeWhile_imp hmem
      simp at this

/-- a successful inline match consumes at least one character. -/
theorem matchInlineAt_rest_lt {s t u rest : List Char}
    (h : matchInlineAt s = some (t, u, rest)) : rest.length < s.length := by
  obtain ⟨hdec, -, -, -⟩ := matchInlineAt_decomp h
  rw [hdec]
  simp only [List.length_cons, List.length_append]
  omega

/-- a successful reference-definition match decomposes its input into
the matched substring followed by the returned rest: the match is
`[label]:` followed by a whitespace run, the target, and then the
rest.  The label is nonempty and free of `]`; the target is nonempty
and free of newlines (only the whitespace run can contain them). -/
theorem matchRefAt_decomp {s l t rest : List Char}
    (h : matchRefAt s = some (l, t, rest)) :
    ∃ ws, (∀ x ∈ ws, isSpace x = true) ∧
      s = '[' :: l ++ ']' :: ':' :: (ws ++ t ++ rest) ∧
      l ≠ [] ∧ (']' ∉ l) ∧ t ≠ [] ∧ ('\n' ∉ t) := by
  simp only [matchRefAt, Option.bind_eq_some, expectChar_eq_some] at h
  obtain ⟨rest0, hs, h⟩ := h
  subst hs
  split at h
  · exact absurd h (by simp)
  · rename_i hlne
    simp only [Option.bind_eq_some, expectChar_eq_some] at h
    obtain ⟨r1, h1, r2, h2, h⟩ := h
    subst h2
    have erest0 : rest0 = rest0.takeWhile (fun c => c ≠ ']') ++ ']' :: ':' :: r2 := by
      rw [← h1]
      exact (List.takeWhile_append_dropWhile _ _).symm
    have hlmem : ']' ∉ rest0.takeWhile (fun c => c ≠ ']') := by
      intro hmem
      have := List.mem_takeWhile_imp hmem
      simp at this
    rcases heq : r2.dropWhile isSpace with _ | ⟨c, r3⟩
    · rw [heq] at h
      have hallsp : ∀ x ∈ r2, isSpace x = true := by
        intro x hx
        by_contra hns
        have hnn : r2.dropWhile isSpace ≠ [] := by
          intro hnil
          have hsub : r2.takeWhile isSpace = r2 := by
            have := List.takeWhile_append_dropWhile isSpace r2
            rw [hnil, List.append_nil] at this
            exact this
          have := List.mem_takeWhile_imp (hsub ▸ hx)
          exact hns this
        exact hnn heq
      rcases heq2 : r2.reverse.dropWhile (fun x => x == '\n') with _ | ⟨c, rr⟩
      · rw [heq2] at h
        exact absurd h (by simp)
      · rw [heq2] at h
        cases h
        refine ⟨rr.reverse, ?_, ?_, hlne, hlmem, by simp, ?_⟩
        · intro x hx
          have hxr : x ∈ r2 := by
            have hx2 : x ∈ r2.reverse := by
              have hsub : rr ⊆ r2.reverse := by
                intro y hy
                have hyd : y ∈ r2.reverse.dropWhile (fun x => x == '\n') := by
                  rw [heq2]; exact List.mem_cons_of_mem _ hy
                exact (List.dropWhile_sublist _).subset hyd
              exact hsub (by simpa using hx)
            simpa using hx2
          exact hallsp x hxr
        · have er2 : r2 = rr.reverse ++ [c] ++ (r2.reverse.takeWhile (fun x => x == '\n')).reverse := by
            have happ := List.takeWhile_append_dropWhile (fun x => x == '\n') r2.reverse
            rw [heq2] at happ
            calc r2 = r2.reverse.reverse := by simp
              _ = (r2.reverse.takeWhile (fun x => x == '\n') ++ c :: rr).reverse := by rw [happ]
              _ = rr.reverse ++ [c] ++ (r2.reverse.takeWhile (fun x => x == '\n')).reverse := by
                  simp
          conv_lhs => rw [erest0]
          conv_lhs => rw [er2]
          simp
        · have hcb : (c == '\n') = false :=
            @dropWhile_cons_not _ (fun x => x == '\n') r2.reverse c rr heq2
          simp only [beq_eq_false_iff_ne, ne_eq] at hcb
          intro hx
          rw [List.mem_singleton] at hx
          exact hcb hx.symm
    · rw [heq] at h
      cases h
      have hcns : isSpace c = false := dropWhile_cons_not heq
      have hcnn : c ≠ '\n' := by
        intro hc
        rw [hc] at hcns
        simp [isSpace] at hcns
      refine ⟨r2.takeWhile isSpace, ?_, ?_, hlne, hlmem, ?_, ?_⟩
      · intro x hx
        exact List.mem_takeWhile_imp hx
      · have er2 : r2 = r2.takeWhile isSpace ++ c :: r3 := by
          rw [← heq]
          exact (List.takeWhile_append_dropWhile _ _).symm
        have ecr3 : (c :: r3).takeWhile (fun x => x ≠ '\n') ++
            (c :: r3).dropWhile (fun x => x ≠ '\n') = c :: r3 :=
          List.takeWhile_append_dropWhile _ _
        conv_lhs => rw [erest0]
        conv_lhs => rw [er2, ← ecr3]
        simp
      · simp [List.takeWhile_cons, hcnn]
      · intro hmem
        have := List.mem_takeWhile_imp hmem
        simp at this

/-- a successful reference-definition match consumes at least one
character. -/
theorem matchRefAt_rest_lt {s l t rest : List Char}
    (h : matchRefAt s = some (l, t, rest)) : rest.length < s.length := by
  obtain ⟨ws, -, hdec, -, -, ht, -⟩ := matchRefAt_decomp h
  rw [hdec]
  simp only [List.length_cons, List.length_append]
  cases t with
  | nil => exact absurd rfl ht
  | cons a as => simp only [List.length_cons]; omega

theorem pathModel_eval :
    dirname "/docs/a.md".toList = "/docs".toList ∧
    dirname "a.md".toList = [] ∧
    dirname "/a".toList = "/".toList ∧
    dirname "docs/sub/a.md".toList = "docs/sub".toList ∧
    dirname "///x".toList = "///".toList ∧
    pjoin "/docs".toList "sub/b.md".toList = "/docs/sub/b.md".toList ∧
    pjoin [] "b".toList = "b".toList ∧
    pjoin "/docs/".toList "b".toList = "/docs/b".toList ∧
    pjoin "/docs".toList "/abs".toList = "/abs".toList ∧
    normpath "/docs/./missing.md".toList = "/docs/missing.md".toList ∧
    normpath "/docs/sub/../b.md".toList = "/docs/b.md".toList ∧
    normpath "//x/y".toList = "//x/y".toList ∧
    normpath "///x/y".toList = "/x/y".toList ∧
    normpath "a/..".toList = ".".toList ∧
    normpath "../a".toList = "../a".toList ∧
    normpath "/..".toList = "/".toList ∧
    normpath "a//b/".toList = "a/b".toList ∧
    abspath "/w".toList "rel/a.md".toList = "/w/rel/a.md".toList ∧
    resolveLocal "/".toList "sub".toList "/docs/a.md".toList "/docs".toList
      = "/docs/sub".toList := by
  decide

theorem findall_eval :
    inlineFindall "see [x](a.md) and [y](b.md#f).".toList
      = [("x".toList, "a.md".toList), ("y".toList, "b.md#f".toList)] ∧
    inlineFindall "[]( no text )".toList = [([], " no text ".toList)] ∧
    inlineFindall "[x]()".toList = [] ∧
    refFindall "[ref]: https://e.com/a\nmore".toList
      = [("ref".toList, "https://e.com/a".toList)] ∧
    refFindall "[a]: ".toList = [("a".toList, " ".toList)] ∧
    refFindall "x [a]b]: c".toList = [] ∧
    refFindall "[x](a.md)".toList = [] ∧
    refFindall "[a]: \n\t\n".toList = [("a".toList, "\t".toList)] ∧
    refFindall "[a]:\n\n".toList = [] ∧
    refFindall "[[a]: b".toList = [("[a".toList, "b".toList)] ∧
    refFindall "[a][b]: c".toList = [("b".toList, "c".toList)] ∧
    refFindall "[a]:b [c]: d".toList = [("a".toList, "b [c]: d".toList)] :=
  ⟨by decide, by decide, by decide, by decide, by decide, by decide,
   by decide, by decide, by decide, by decide, by decide, by decide⟩

theorem pipeline_eval :
    validate_links fsDangling netOk "/docs".toList true
      = (2, [brokenDangling], false) ∧
    validate_links fsEmptyDocs netOk "/docs".toList true = (0, [], true) ∧
    main fsEmptyDocs netOk "/docs".toList false = 0 ∧
    main fsDangling netOk "/docs".toList false = 1 ∧
    main fsRootFile netOk "/missing".toList false = 1 ∧
    main fsRootFile netOk "/notes.md".toList false = 0 := by
  decide

theorem exists'_of_isFile {fs : FS} {p : List Char} (h : fs.isFile p = true) :
    fs.exists' p = true := by
  simp [FS.exists', h]

theorem isDir_eq_false_of_exists'_false {fs : FS} {p : List Char}
    (h : fs.exists' p = false) : fs.isDir p = false := by
  simp [FS.exists'] at h
  exact h.1.2

theorem notFoundR_ne_dirIndexR (p : List Char) : notFoundR p ≠ dirIndexR := by
  intro h
  have h1 : (notFoundR p).head? = some 'F' := rfl
  rw [h] at h1
  exact absurd h1 (by decide)

theorem startsWithL_ne_nil {c : Char} {pat l : List Char}
    (h : startsWithL (c :: pat) l = true) : l ≠ [] := by
  cases l with
  | nil => simp [startsWithL] at h
  | cons x xs => simp

/-- C1: the spec demands that a local target resolving to an existing
directory be valid exactly when the directory directly contains an
`index.md` (reason `directory with index.md`), and invalid otherwise.
The code instead takes the `os.path.exists` branch first, which is true
for directories, so an existing directory WITHOUT `index.md` is
reported valid with reason `File exists`: evaluated here at a concrete
filesystem in which `/docs/sub` is a directory, no `index.md` exists
inside it, and the target `sub` written in `/docs/a.md` resolves to
it. -/
theorem C1_directory_without_index_reported_valid :
    fsDirNoIndex.isDir
      (resolveLocal fsDirNoIndex.cwd "sub".toList "/docs/a.md".toList "/docs".toList) = true ∧
    fsDirNoIndex.exists'
      (pjoin (resolveLocal fsDirNoIndex.cwd "sub".toList "/docs/a.md".toList "/docs".toList)
        indexMdL) = false ∧
    validate_local_link fsDirNoIndex "sub".toList "/docs/a.md".toList "/docs".toList
      = (true, fileExistsR) := by
  decide

/-- C2: whenever the resolved local path exists at the OS level —
regular file, directory, or anything else `os.path.exists` reports —
`validate_local_link` returns valid with reason `File exists`; and the
reason `Directory with index.md` is unreachable: no input whatsoever
produces it, because `os.path.isdir` implies `os.path.exists` and the
exists-branch returns first. -/
theorem C2_exists_shadows_directory_branch :
    ∀ (fs : FS) (link_url base_path docs_root : List Char),
      (link_url.takeWhile (fun c => c ≠ '#') ≠ [] →
        fs.exists' (resolveLocal fs.cwd (link_url.takeWhile (fun c => c ≠ '#'))
          base_path docs_root) = true →
        validate_local_link fs link_url base_path docs_root = (true, fileExistsR)) ∧
      (validate_local_link fs link_url base_path docs_root).2 ≠ dirIndexR := by
  intro fs link_url base_path docs_root
  constructor
  · intro h1 h2
    simp only [validate_local_link]
    rw [if_neg h1, if_pos h2]
  · simp only [validate_local_link]
    by_cases h0 : link_url.takeWhile (fun c => c ≠ '#') = []
    · rw [if_pos h0]
      intro h
      exact absurd h (by decide)
    · rw [if_neg h0]
      by_cases hex : fs.exists' (resolveLocal fs.cwd
          (link_url.takeWhile (fun c => c ≠ '#')) base_path docs_root) = true
      · rw [if_pos hex]
        intro h
        exact absurd h (by decide)
      · rw [if_neg hex]
        have hdir : fs.isDir (resolveLocal fs.cwd
            (link_url.takeWhile (fun c => c ≠ '#')) base_path docs_root) = false :=
          isDir_eq_false_of_exists'_false (Bool.eq_false_iff.mpr hex)
        rw [hdir]
        simp only [Bool.false_eq_true, if_false]
        exact notFoundR_ne_dirIndexR _

/-- C2 witness: a concrete resolved path that exists (the real file
`/docs/sub/b.md`) yields `(valid, File exists)`, and the reason is not
`Directory with index.md`. -/
theorem C2_witness :
    validate_local_link fsTwoForms "b.md".toList "/docs/sub/a.md".toList "/docs".toList
      = (true, fileExistsR) ∧
    (validate_local_link fsTwoForms "b.md".toList "/docs/sub/a.md".toList
      "/docs".toList).2 ≠ dirIndexR :=
  ⟨(C2_exists_shadows_directory_branch fsTwoForms "b.md".toList "/docs/sub/a.md".toList
      "/docs".toList).1 (by decide) (by decide),
   (C2_exists_shadows_directory_branch fsTwoForms "b.md".toList "/docs/sub/a.md".toList
      "/docs".toList).2⟩

/-- C6: two local target forms — one root-relative (leading `/`,
resolved against the documentation root) and one relative to the
containing document's directory — that resolve to the same existing
real file are both judged valid by `validate_local_link`. -/
theorem C6_root_relative_and_relative_forms_agree :
    ∀ (fs : FS) (t1 t2 base_path docs_root : List Char),
      startsWithL ['/'] (t1.takeWhile (fun c => c ≠ '#')) = true →
      startsWithL ['/'] (t2.takeWhile (fun c => c ≠ '#')) = false →
      t2.takeWhile (fun c => c ≠ '#') ≠ [] →
      resolveLocal fs.cwd (t1.takeWhile (fun c => c ≠ '#')) base_path docs_root =
        resolveLocal fs.cwd (t2.takeWhile (fun c => c ≠ '#')) base_path docs_root →
      fs.isFile (resolveLocal fs.cwd (t1.takeWhile (fun c => c ≠ '#'))
        base_path docs_root) = true →
      (validate_local_link fs t1 base_path docs_root).1 = true ∧
      (validate_local_link fs t2 base_path docs_root).1 = true := by
  intro fs t1 t2 base_path docs_root h1 h2 hne2 hres hfile
  have hne1 : t1.takeWhile (fun c => c ≠ '#') ≠ [] := startsWithL_ne_nil h1
  have hex1 : fs.exists' (resolveLocal fs.cwd (t1.takeWhile (fun c => c ≠ '#'))
      base_path docs_root) = true := exists'_of_isFile hfile
  have hex2 : fs.exists' (resolveLocal fs.cwd (t2.takeWhile (fun c => c ≠ '#'))
      base_path docs_root) = true := by rw [← hres]; exact hex1
  constructor
  · simp only [validate_local_link]
    rw [if_neg hne1, if_pos hex1]
  · simp only [validate_local_link]
    rw [if_neg hne2, if_pos hex2]

/-- C6 witness: `/sub/b.md` (root-relative) written in
`/docs/sub/a.md` and `b.md` (relative) both resolve to the real file
`/docs/sub/b.md` and are both valid. -/
theorem C6_witness :
    (validate_local_link fsTwoForms "/sub/b.md".toList "/docs/sub/a.md".toList
      "/docs".toList).1 = true ∧
    (validate_local_link fsTwoForms "b.md".toList "/docs/sub/a.md".toList
      "/docs".toList).1 = true :=
  C6_root_relative_and_relative_forms_agree fsTwoForms "/sub/b.md".toList "b.md".toList
    "/docs/sub/a.md".toList "/docs".toList (by decide) (by decide) (by decide)
    (by decide) (by decide)

/-- C7: a target that is empty before the first `#` is judged valid
with reason `Fragment only` for every filesystem whatsoever — the
universal quantification over `fs` shows no filesystem existence check
influences the outcome. -/
theorem C7_fragment_only_always_valid :
    ∀ (fs : FS) (link_url base_path docs_root : List Char),
      link_url.takeWhile (fun c => c ≠ '#') = [] →
      validate_local_link fs link_url base_path docs_root = (true, fragmentOnlyR) := by
  intro fs link_url base_path docs_root h
  simp only [validate_local_link]
  rw [if_pos h]

/-- C7 witness: `#intro` is valid with reason `Fragment only` on a
filesystem that contains no heading or anchor named `intro`. -/
theorem C7_witness :
    validate_local_link fsDirNoIndex "#intro".toList "/docs/a.md".toList "/docs".toList
      = (true, fragmentOnlyR) :=
  C7_fragment_only_always_valid fsDirNoIndex "#intro".toList "/docs/a.md".toList
    "/docs".toList (by decide)

/-- C4: a timeout on the initial HEAD request makes
`validate_external_link` return invalid with reason `Timeout` having
issued only the HEAD request; and a GET request is ever issued exactly
when the HEAD request completed with an HTTP status of 400 or above. -/
theorem C4_timeout_no_get_fallback :
    ∀ (h g : NetResult),
      (h = NetResult.timeout →
        validate_external_link h g = ((false, timeoutR), [Method.head])) ∧
      (Method.get ∈ (validate_external_link h g).2 ↔
        ∃ s, h = NetResult.ok s ∧ 400 ≤ s) := by
  intro h g
  constructor
  · intro hh
    subst hh
    rfl
  · cases h with
    | timeout => simp [validate_external_link]
    | connError => simp [validate_external_link]
    | reqError m => simp [validate_external_link]
    | ok s =>
      by_cases hs : s < 400
      · simp only [validate_external_link, if_pos hs]
        constructor
        · intro hmem
          exact absurd hmem (by decide)
        · rintro ⟨s1, hs1, hle⟩
          cases hs1
          exact absurd hle (by omega)
      · have hex : ∃ s1, NetResult.ok s = NetResult.ok s1 ∧ 400 ≤ s1 :=
          ⟨s, rfl, by omega⟩
        simp only [validate_external_link, if_neg hs]
        cases g with
        | timeout => simpa using hex
        | connError => simpa using hex
        | reqError m => simpa using hex
        | ok t =>
          by_cases ht : t < 400
          · simpa [ht] using hex
          · simpa [ht] using hex

/-- C4 witness: a HEAD timeout against a URL whose GET would have
answered 200 still reports `Timeout` and issues no GET. -/
theorem C4_witness :
    validate_external_link NetResult.timeout (NetResult.ok 200)
      = ((false, timeoutR), [Method.head]) :=
  (C4_timeout_no_get_fallback NetResult.timeout (NetResult.ok 200)).1 rfl

/-- C5: when the HEAD request answers with status 400 or above and the
fallback GET answers below 400, the outcome is valid with the
GET-fallback reason `HTTP <status> (GET)`; when the GET status is also
400 or above, the outcome is invalid with reason `HTTP <status>`
carrying the final (GET) status code. -/
theorem C5_get_fallback_decides :
    ∀ (s t : Nat), 400 ≤ s →
      ((t < 400 →
         (validate_external_link (NetResult.ok s) (NetResult.ok t)).1
           = (true, httpGetR t)) ∧
       (400 ≤ t →
         (validate_external_link (NetResult.ok s) (NetResult.ok t)).1
           = (false, httpR t))) := by
  intro s t hs
  have hns : ¬ s < 400 := by omega
  constructor
  · intro ht
    simp only [validate_external_link, if_neg hns, if_pos ht]
  · intro ht
    have hnt : ¬ t < 400 := by omega
    simp only [validate_external_link, if_neg hns, if_neg hnt]

/-- C5 witness: HEAD 500 with GET 200 is valid via the GET fallback;
HEAD 500 with GET 404 is invalid with reason `HTTP 404`. -/
theorem C5_witness :
    (validate_external_link (NetResult.ok 500) (NetResult.ok 200)).1
      = (true, httpGetR 200) ∧
    (validate_external_link (NetResult.ok 500) (NetResult.ok 404)).1
      = (false, httpR 404) :=
  ⟨(C5_get_fallback_decides 500 200 (by decide)).1 (by decide),
   (C5_get_fallback_decides 500 404 (by decide)).2 (by decide)⟩

theorem refFindallMGo_shape :
    ∀ (fuel : Nat) (s : List Char), ∀ m ∈ refFindallMGo fuel s,
      List.IsInfix m.1 s ∧
      ∃ ws, (∀ x ∈ ws, isSpace x = true) ∧
        m.1 = '[' :: m.2.1 ++ ']' :: ':' :: (ws ++ m.2.2) ∧
        m.2.1 ≠ [] ∧ (']' ∉ m.2.1) ∧ m.2.2 ≠ [] ∧ ('\n' ∉ m.2.2) := by
  intro fuel
  induction fuel with
  | zero =>
    intro s m hm
    simp [refFindallMGo] at hm
  | succ n ih =>
    intro s m hm
    cases s with
    | nil => simp [refFindallMGo] at hm
    | cons c cs =>
      rw [refFindallMGo] at hm
      rcases heq : matchRefAt (c :: cs) with _ | ⟨⟨l, t, rest⟩⟩
      · rw [heq] at hm
        obtain ⟨hinf, hrest⟩ := ih cs m hm
        exact ⟨hinf.trans (List.suffix_cons c cs).isInfix, hrest⟩
      · rw [heq] at hm
        obtain ⟨ws, hws, hdec, hl, hlm, ht, htn⟩ := matchRefAt_decomp heq
        have hA : c :: cs = ('[' :: l ++ ']' :: ':' :: (ws ++ t)) ++ rest := by
          rw [hdec]; simp
        rcases List.mem_cons.mp hm with hm1 | hm2
        · subst hm1
          have htake : (c :: cs).take ((c :: cs).length - rest.length)
              = '[' :: l ++ ']' :: ':' :: (ws ++ t) := by
            conv_lhs => rw [hA]
            rw [List.length_append, Nat.add_sub_cancel, List.take_left]
          refine ⟨?_, ws, hws, ?_, hl, hlm, ht, htn⟩
          · rw [htake]
            exact ⟨[], rest, by simpa using hA.symm⟩
          · exact htake
        · have hsuf : List.IsSuffix rest (c :: cs) :=
            ⟨'[' :: l ++ ']' :: ':' :: (ws ++ t), hA.symm⟩
          obtain ⟨hinf, hrest⟩ := ih rest m hm2
          exact ⟨hinf.trans hsuf.isInfix, hrest⟩

/-- C3 (amended): every link produced by the reference-definition pass
comes from a substring of the content literally of the shape
`[<label>]:<whitespace run><target>`: the label is nonempty and
excludes `]`, and the target is nonempty, contains no newline, and is
the remainder of the match through the end of the line on which the
TARGET starts.  Because Python `\s` also matches newlines, the
whitespace run after the colon may contain line breaks, so the target
may lie on a line after the one on which the match starts (the original
claim's stronger reading is refuted by `C3_counterexample`). -/
theorem C3_reference_pass_match_shape :
    ∀ (content : List Char), ∀ m ∈ refFindallM content,
      List.IsInfix m.1 content ∧
      ∃ ws, (∀ x ∈ ws, isSpace x = true) ∧
        m.1 = '[' :: m.2.1 ++ ']' :: ':' :: (ws ++ m.2.2) ∧
        m.2.1 ≠ [] ∧ (']' ∉ m.2.1) ∧ m.2.2 ≠ [] ∧ ('\n' ∉ m.2.2) := by
  intro content
  exact refFindallMGo_shape content.length content

/-- C3 counterexample: on the content `"[a]:\nb"` the
reference-definition pass produces the link `(label a, target b)` whose
matched substring is the entire two-line content: the match spans the
newline and the extracted target lies wholly past the end of the line
on which the match starts, refuting the claim that the target is the
remainder of the match through the end of the line on which the match
starts. -/
theorem C3_counterexample :
    refFindallM "[a]:\nb".toList
      = [("[a]:\nb".toList, "a".toList, "b".toList)] ∧
    ¬ (∀ m ∈ refFindallM "[a]:\nb".toList, '\n' ∉ m.1) := by
  decide

/-- C3 witness: the single-line reference definition `[ref]: x` is
extracted with label `ref` and target `x`, and its match decomposes as
the amended claim states. -/
theorem C3_witness :
    List.IsInfix ("[ref]: x".toList, "ref".toList, "x".toList).1 "[ref]: x".toList ∧
    ∃ ws, (∀ x ∈ ws, isSpace x = true) ∧
      ("[ref]: x".toList, "ref".toList, "x".toList).1
        = '[' :: ("[ref]: x".toList, "ref".toList, "x".toList).2.1 ++ ']' :: ':' ::
            (ws ++ ("[ref]: x".toList, "ref".toList, "x".toList).2.2) ∧
      ("[ref]: x".toList, "ref".toList, "x".toList).2.1 ≠ [] ∧
      (']' ∉ ("[ref]: x".toList, "ref".toList, "x".toList).2.1) ∧
      ("[ref]: x".toList, "ref".toList, "x".toList).2.2 ≠ [] ∧
      ('\n' ∉ ("[ref]: x".toList, "ref".toList, "x".toList).2.2) :=
  C3_reference_pass_match_shape "[ref]: x".toList
    ("[ref]: x".toList, "ref".toList, "x".toList) (by decide)

theorem checkLink_eq_some {fs : FS} {net : Net} {ce : Bool} {dir f : List Char}
    {link : Link} {b : Broken}
    (h : checkLink fs net ce dir f link = some b) :
    b.file = f ∧ b.url = stripWs link.url ∧ b.url ≠ [] ∧
    startsWithL mailtoP b.url = false ∧ startsWithL javascriptP b.url = false ∧
    ((startsWithL httpP b.url || startsWithL httpsP b.url) = true →
      ce = true ∧ b.btype = externalT ∧
      (validate_external_link (net b.url).1 (net b.url).2).1 = (false, b.reason)) ∧
    ((startsWithL httpP b.url || startsWithL httpsP b.url) = false →
      b.btype = localT ∧
      validate_local_link fs b.url f dir = (false, b.reason)) := by
  simp only [checkLink] at h
  split at h
  · exact absurd h (by simp)
  rename_i hne
  split at h
  · exact absurd h (by simp)
  rename_i hm
  split at h
  · exact absurd h (by simp)
  rename_i hj
  split at h
  · rename_i hhttp
    split at h
    · rename_i hce
      split at h
      · exact absurd h (by simp)
      rename_i hval
      cases h
      refine ⟨rfl, rfl, hne, Bool.eq_false_iff.mpr hm, Bool.eq_false_iff.mpr hj,
        fun _ => ⟨hce, rfl, ?_⟩, fun hn => absurd hhttp (by simp [hn])⟩
      have hv : (validate_external_link (net (stripWs link.url)).1
          (net (stripWs link.url)).2).1.1 = false := Bool.eq_false_iff.mpr hval
      exact Prod.ext hv rfl
    · exact absurd h (by simp)
  · rename_i hhttp
    split at h
    · exact absurd h (by simp)
    rename_i hval
    cases h
    refine ⟨rfl, rfl, hne, Bool.eq_false_iff.mpr hm, Bool.eq_false_iff.mpr hj,
      fun hy => absurd hy hhttp, fun _ => ⟨rfl, ?_⟩⟩
    have hv : (validate_local_link fs (stripWs link.url) f dir).1 = false :=
      Bool.eq_false_iff.mpr hval
    exact Prod.ext hv rfl

/-- C8: skipped targets (empty after trimming, `mailto:`, `javascript:`)
never enter the broken-links list although every extracted link —
skipped or not — counts once toward the total tally; and every
broken-links entry records a target that was actually checked: an
external entry carries a failing `validate_external_link` verdict
(possible only with external checking enabled), a local entry a failing
`validate_local_link` verdict. -/
theorem C8_skipped_counted_never_reported :
    ∀ (fs : FS) (net : Net) (ce : Bool) (dir : List Char),
      (validate_links fs net dir ce).1 =
        ((find_markdown_files fs dir).map
          (fun f => (extract_links (fs.content f)).length)).sum ∧
      ∀ b ∈ (validate_links fs net dir ce).2.1,
        b.url ≠ [] ∧
        startsWithL mailtoP b.url = false ∧
        startsWithL javascriptP b.url = false ∧
        ((startsWithL httpP b.url || startsWithL httpsP b.url) = true →
          ce = true ∧ b.btype = externalT ∧
          (validate_external_link (net b.url).1 (net b.url).2).1 = (false, b.reason)) ∧
        ((startsWithL httpP b.url || startsWithL httpsP b.url) = false →
          b.btype = localT ∧
          validate_local_link fs b.url b.file dir = (false, b.reason)) := by
  intro fs net ce dir
  constructor
  · rfl
  · intro b hb
    simp only [validate_links, List.mem_flatMap, List.mem_filterMap] at hb
    obtain ⟨f, hf, link, hlink, hcheck⟩ := hb
    obtain ⟨hfile, hurl, hne, hm, hj, hext, hloc⟩ := checkLink_eq_some hcheck
    refine ⟨hne, hm, hj, hext, fun hn => ?_⟩
    obtain ⟨hb1, hb2⟩ := hloc hn
    exact ⟨hb1, by rw [hfile]; exact hb2⟩

/-- C8 witness: in a documentation tree whose single file holds a
`mailto:` link and one dangling local link, the single broken-links
entry is the dangling local link — checked, not skipped — while the
total tally is 2, counting the skipped `mailto:` link once. -/
theorem C8_witness :
    brokenDangling.url ≠ [] ∧
    startsWithL mailtoP brokenDangling.url = false ∧
    startsWithL javascriptP brokenDangling.url = false ∧
    ((startsWithL httpP brokenDangling.url || startsWithL httpsP brokenDangling.url) = true →
      true = true ∧ brokenDangling.btype = externalT ∧
      (validate_external_link (netOk brokenDangling.url).1
        (netOk brokenDangling.url).2).1 = (false, brokenDangling.reason)) ∧
    ((startsWithL httpP brokenDangling.url || startsWithL httpsP brokenDangling.url) = false →
      brokenDangling.btype = localT ∧
      validate_local_link fsDangling brokenDangling.url brokenDangling.file
        "/docs".toList = (false, brokenDangling.reason)) :=
  (C8_skipped_counted_never_reported fsDangling netOk true "/docs".toList).2
    brokenDangling (by decide)

/-- C9: the boolean `validate_links` returns is true exactly when the
broken-links list is empty; the process exit status is 0 exactly when
the pre-flight existence check on the target directory passes and no
broken link was found, and 1 exactly when the directory is missing or
at least one broken link was found; and a tree whose files contain no
links at all yields total links = 0 and success. -/
theorem C9_success_and_exit_status :
    ∀ (fs : FS) (net : Net) (docs_dir : List Char) (skip_external : Bool),
      ((validate_links fs net docs_dir (!skip_external)).2.2 = true ↔
        (validate_links fs net docs_dir (!skip_external)).2.1 = []) ∧
      (main fs net docs_dir skip_external = 0 ↔
        (fs.exists' docs_dir = true ∧
         (validate_links fs net docs_dir (!skip_external)).2.1 = [])) ∧
      (main fs net docs_dir skip_external = 1 ↔
        (fs.exists' docs_dir = false ∨
         (validate_links fs net docs_dir (!skip_external)).2.1 ≠ [])) ∧
      ((∀ f ∈ find_markdown_files fs docs_dir,
          extract_links (fs.content f) = []) →
        (validate_links fs net docs_dir (!skip_external)).1 = 0 ∧
        (validate_links fs net docs_dir (!skip_external)).2.2 = true) := by
  intro fs net docs_dir skip_external
  have hempty : (validate_links fs net docs_dir (!skip_external)).2.2 =
      (validate_links fs net docs_dir (!skip_external)).2.1.isEmpty := rfl
  refine ⟨?_, ?_, ?_, ?_⟩
  · rw [hempty]
    exact List.isEmpty_iff
  · simp only [main]
    cases hex : fs.exists' docs_dir with
    | false =>
      simp only [hex, Bool.not_false, if_true]
      constructor
      · intro h; exact absurd h (by decide)
      · rintro ⟨h, -⟩; exact absurd h (by simp [hex])
    | true =>
      simp only [hex, Bool.not_true, Bool.false_eq_true, if_false]
      cases hsucc : (validate_links fs net docs_dir (!skip_external)).2.2 with
      | false =>
        simp only [hsucc, Bool.false_eq_true, if_false]
        constructor
        · intro h; exact absurd h (by decide)
        · rintro ⟨-, h⟩
          rw [hempty] at hsucc
          rw [h] at hsucc
          exact absurd hsucc (by decide)
      | true =>
        simp only [hsucc, if_true]
        rw [hempty] at hsucc
        exact ⟨fun _ => ⟨trivial, List.isEmpty_iff.mp hsucc⟩, fun _ => trivial⟩
  · simp only [main]
    cases hex : fs.exists' docs_dir with
    | false =>
      simp only [hex, Bool.not_false, if_true]
      exact ⟨fun _ => Or.inl trivial, fun _ => trivial⟩
    | true =>
      simp only [hex, Bool.not_true, Bool.false_eq_true, if_false]
      cases hsucc : (validate_links fs net docs_dir (!skip_external)).2.2 with
      | false =>
        simp only [hsucc, Bool.false_eq_true, if_false]
        refine ⟨fun _ => Or.inr ?_, fun _ => trivial⟩
        intro hnil
        rw [hempty, hnil] at hsucc
        exact absurd hsucc (by decide)
      | true =>
        simp only [hsucc, if_true]
        constructor
        · intro h; exact absurd h (by decide)
        · rintro (h | h)
          · exact absurd h (by simp [hex])
          · rw [hempty] at hsucc
            exact absurd (List.isEmpty_iff.mp hsucc) h
  · intro hnolinks
    have hbroken : (validate_links fs net docs_dir (!skip_external)).2.1 = [] := by
      apply List.eq_nil_iff_forall_not_mem.mpr
      intro b hb
      simp only [validate_links, List.mem_flatMap, List.mem_filterMap] at hb
      obtain ⟨f, hf, link, hlink, -⟩ := hb
      rw [hnolinks f hf] at hlink
      exact absurd hlink (by simp)
    refine ⟨?_, ?_⟩
    · simp only [validate_links]
      apply List.sum_eq_zero_iff.mpr
      intro x hx
      obtain ⟨f, hf, hfx⟩ := List.mem_map.mp hx
      rw [hnolinks f hf] at hfx
      simpa using hfx.symm
    · rw [hempty, hbroken]
      rfl

/-- C9 witness: an existing documentation directory with no files has
exit status 0, total links 0 and a successful report. -/
theorem C9_witness :
    main fsEmptyDocs netOk "/docs".toList false = 0 ∧
    (validate_links fsEmptyDocs netOk "/docs".toList (!false)).1 = 0 ∧
    (validate_links fsEmptyDocs netOk "/docs".toList (!false)).2.2 = true :=
  ⟨(C9_success_and_exit_status fsEmptyDocs netOk "/docs".toList false).2.1.mpr
      ⟨by decide, by decide⟩,
   ((C9_success_and_exit_status fsEmptyDocs netOk "/docs".toList false).2.2.2
      (by decide)).1,
   ((C9_success_and_exit_status fsEmptyDocs netOk "/docs".toList false).2.2.2
      (by decide)).2⟩

/-- C10: when the root path given on the command line exists but is a
regular file, the pre-flight `os.path.exists` check passes, the walk
(which yields nothing for a non-directory) produces zero documentation
files, the run reports total links = 0 with no broken links, and the
exit status is 0. -/
theorem C10_root_regular_file_exits_zero :
    ∀ (fs : FS) (net : Net) (docs_dir : List Char) (skip_external : Bool),
      fs.isFile docs_dir = true →
      fs.isDir docs_dir = false →
      fs.walkFiles docs_dir = [] →
      find_markdown_files fs docs_dir = [] ∧
      validate_links fs net docs_dir (!skip_external) = (0, [], true) ∧
      main fs net docs_dir skip_external = 0 := by
  intro fs net docs_dir skip_external hfile hdir hwalk
  have hfind : find_markdown_files fs docs_dir = [] := by
    simp [find_markdown_files, hwalk]
  have hvl : validate_links fs net docs_dir (!skip_external) = (0, [], true) := by
    simp [validate_links, hfind]
  refine ⟨hfind, hvl, ?_⟩
  simp [main, exists'_of_isFile hfile, hvl]

/-- C10 witness: with `/notes.md` a regular file passed as the root
argument, the run finds no files and exits 0. -/
theorem C10_witness :
    find_markdown_files fsRootFile "/notes.md".toList = [] ∧
    validate_links fsRootFile netOk "/notes.md".toList (!false) = (0, [], true) ∧
    main fsRootFile netOk "/notes.md".toList false = 0 :=
  C10_root_regular_file_exits_zero fsRootFile netOk "/notes.md".toList false
    (by decide) (by decide) (by decide)

end ValidateLinks
